import Mathlib

/-!
Verification of the snichecker repository (`src/main.py`).

Strings are embedded as `List Char`.  Python's stdlib helpers used by the
program (`re.finditer` on an escaped literal pattern, `str.replace` with
count 1, `str.count`, `str.split`, `str.strip`, `int(...)`,
`urllib.parse.urlparse`, `urllib.parse.parse_qs`, `list.pop`,
`random.sample`) are modelled by executable Lean functions below; each doc
comment states the modelled behaviour and any simplification.
-/

namespace SniChecker

/-- Left-to-right non-overlapping match positions of the literal pattern
`old` in the text, continuing the scan after the end of each match, as
`re.finditer(re.escape(old), string)` does for a non-empty pattern.  The
fuel argument only serves termination; `s.length` fuel is always enough
because every step consumes at least one character. -/
def occAux (old : List Char) : Nat → List Char → Nat → List Nat
  | _, [], _ => []
  | 0, _ :: _, _ => []
  | fuel + 1, c :: rest, i =>
    if old.isPrefixOf (c :: rest) then
      i :: occAux old fuel (List.drop old.length (c :: rest)) (i + old.length)
    else
      occAux old fuel rest (i + 1)

/-- Start positions of the non-overlapping occurrences of `old` in `s`,
as computed by `[m.start() for m in re.finditer(re.escape(__old), string)]`
in `replace_nth`.  An empty pattern matches at every position, including
the end of the string, exactly as Python's `re` module reports. -/
def occurrences (old s : List Char) : List Nat :=
  if old.isEmpty then List.range (s.length + 1)
  else occAux old s.length s 0

/-- Python's non-overlapping substring count `string.count(old)`. -/
def countOcc (old s : List Char) : Nat :=
  (occurrences old s).length

/-- Python's `string.replace(old, new, 1)`: replace the first occurrence
of `old` by `new`, returning the string unchanged when there is none.  An
empty `old` inserts `new` at the front, as in Python. -/
def replaceFirst (old new : List Char) : List Char → List Char
  | [] => if old.isEmpty then new else []
  | c :: rest =>
    if old.isPrefixOf (c :: rest) then new ++ List.drop old.length (c :: rest)
    else c :: replaceFirst old new rest

/-- `replace_nth(string, __old, __new, n)` from `src/main.py`: list the
occurrence positions; if `n <= 0` or `n` exceeds their number return the
string unchanged; otherwise split before the n-th occurrence and replace
the first occurrence inside the suffix. -/
def replace_nth (s old new : List Char) (n : Int) : List Char :=
  let occ := occurrences old s
  if n ≤ 0 ∨ (occ.length : Int) < n then s
  else
    let pos := occ.getD (n.toNat - 1) 0
    s.take pos ++ replaceFirst old new (s.drop pos)

/-- Every position reported by `occAux` is the start of a match of `old`,
expressed relative to the scanned suffix. -/
theorem occAux_mem_isPrefix (old : List Char) :
    ∀ fuel t i pos, pos ∈ occAux old fuel t i →
      ∃ k, pos = i + k ∧ old.isPrefixOf (t.drop k) = true := by
  intro fuel
  induction fuel with
  | zero =>
    intro t i pos h
    cases t with
    | nil => simp [occAux] at h
    | cons c rest => simp [occAux] at h
  | succ fuel ih =>
    intro t i pos h
    cases t with
    | nil => simp [occAux] at h
    | cons c rest =>
      rw [occAux] at h
      by_cases hp : old.isPrefixOf (c :: rest) = true
      · rw [if_pos hp] at h
        rcases List.mem_cons.mp h with h0 | h1
        · exact ⟨0, by simpa using h0, by simpa using hp⟩
        · obtain ⟨k, hk, hpre⟩ := ih _ _ _ h1
          refine ⟨old.length + k, by omega, ?_⟩
          rwa [List.drop_drop] at hpre
      · rw [if_neg hp] at h
        obtain ⟨k, hk, hpre⟩ := ih _ _ _ h
        refine ⟨k + 1, by omega, ?_⟩
        simpa using hpre

/-- Every position in `occurrences old s` is the start of a match. -/
theorem occurrences_isPrefix (old s : List Char) :
    ∀ pos ∈ occurrences old s, old.isPrefixOf (s.drop pos) = true := by
  intro pos h
  rw [occurrences] at h
  by_cases he : old.isEmpty
  · have hnil : old = [] := List.isEmpty_iff.mp he
    subst hnil
    simp
  · rw [if_neg he] at h
    obtain ⟨k, hk, hp⟩ := occAux_mem_isPrefix old s.length s 0 pos h
    have : pos = k := by omega
    subst this
    exact hp

/-- Replacing the first occurrence in a string that starts with the
pattern substitutes the replacement for that leading pattern. -/
theorem replaceFirst_leading_match (old new t : List Char)
    (h : old.isPrefixOf t = true) :
    replaceFirst old new t = new ++ t.drop old.length := by
  cases t with
  | nil =>
    have hnil : old = [] := by
      cases old with
      | nil => rfl
      | cons a as => simp [List.isPrefixOf] at h
    subst hnil
    simp [replaceFirst]
  | cons c rest =>
    rw [replaceFirst, if_pos h]

/-- In-range case of `replace_nth`: the result keeps the characters
before and after the i-th occurrence and substitutes `new` for it. -/
theorem replace_nth_in_range (s old new : List Char) (i : Int)
    (h1 : 1 ≤ i) (h2 : i ≤ ((occurrences old s).length : Int)) :
    replace_nth s old new i =
      s.take ((occurrences old s).getD (i.toNat - 1) 0) ++ new ++
        s.drop ((occurrences old s).getD (i.toNat - 1) 0 + old.length) := by
  have hn : ¬(i ≤ 0 ∨ ((occurrences old s).length : Int) < i) := by omega
  simp only [replace_nth, if_neg hn]
  have hlt : i.toNat - 1 < (occurrences old s).length := by omega
  have hmem : (occurrences old s).getD (i.toNat - 1) 0 ∈ occurrences old s := by
    rw [List.getD_eq_getElem _ _ hlt]
    exact List.getElem_mem hlt
  have hp := occurrences_isPrefix old s _ hmem
  rw [replaceFirst_leading_match old new _ hp, List.drop_drop, Nat.add_comm,
    List.append_assoc]

/-- Out-of-range case of `replace_nth`: the string is returned unchanged. -/
theorem replace_nth_out_of_range (s old new : List Char) (i : Int)
    (h : i ≤ 0 ∨ ((occurrences old s).length : Int) < i) :
    replace_nth s old new i = s := by
  simp only [replace_nth, if_pos h]

/-- C1: for a string `s` with `k` non-overlapping occurrences of `old`,
`replace_nth s old new i` with `1 ≤ i ≤ k` yields the string whose
characters before and after the i-th occurrence are untouched and whose
i-th occurrence is replaced by `new`; for `i ≤ 0` or `i > k` it returns
`s` unchanged. -/
theorem replace_nth_correct (s old new : List Char) (i : Int) :
    replace_nth s old new i =
      if 1 ≤ i ∧ i ≤ ((occurrences old s).length : Int) then
        s.take ((occurrences old s).getD (i.toNat - 1) 0) ++ new ++
          s.drop ((occurrences old s).getD (i.toNat - 1) 0 + old.length)
      else s := by
  by_cases h : 1 ≤ i ∧ i ≤ ((occurrences old s).length : Int)
  · rw [if_pos h]
    exact replace_nth_in_range s old new i h.1 h.2
  · rw [if_neg h]
    exact replace_nth_out_of_range s old new i (by omega)

/-- Python's `str.split(sep)` for a one-character separator: split at every
occurrence, keeping empty segments, so the result always has one more
segment than there are separators. -/
def pySplit (c : Char) : List Char → List (List Char)
  | [] => [[]]
  | x :: rest =>
    if x = c then [] :: pySplit c rest
    else
      match pySplit c rest with
      | [] => [[x]]
      | h :: t => (x :: h) :: t

/-- Python's `str.split(sep, 1)` for a one-character separator, returning
`none` when the separator does not occur: the text before the first
separator and the text after it. -/
def splitFirst (c : Char) : List Char → Option (List Char × List Char)
  | [] => none
  | x :: rest =>
    if x = c then some ([], rest)
    else (splitFirst c rest).map (fun p => (x :: p.1, p.2))

/-- Characters allowed in a URL scheme by `urllib.parse` (ASCII letters,
digits, `+`, `-`, `.`). -/
def schemeChar (c : Char) : Bool :=
  c.isAlpha || c.isDigit || c = '+' || c = '-' || c = '.'

/-- The scheme-splitting step of `urllib.parse.urlsplit`: when the text
has a `:` at a positive index, the first character is an ASCII letter and
everything before the `:` is a scheme character, the scheme is that
prefix lowercased and the remainder follows the `:`; otherwise the scheme
is empty and the text is untouched. -/
def splitScheme (s : List Char) : List Char × List Char :=
  let pre := s.takeWhile (fun c => !(c == ':'))
  if pre.length < s.length ∧ pre ≠ [] ∧ (pre.headD ' ').isAlpha = true ∧
      pre.all schemeChar = true then
    (pre.map Char.toLower, s.drop (pre.length + 1))
  else ([], s)

/-- The fields of `urllib.parse.urlparse` that `parse_config` reads. -/
structure UrlParts where
  scheme : List Char
  netloc : List Char
  query : List Char
deriving DecidableEq, Repr

/-- The three byte values (tab, CR, LF) that `urlsplit` deletes from
anywhere in the URL before parsing. -/
def unsafeUrlChar (c : Char) : Bool :=
  c = '\t' || c = '\r' || c = '\n'

/-- A WHATWG C0 control character or space (code point at most 32),
which `urlsplit` strips from the front of the URL. -/
def c0ControlOrSpace (c : Char) : Bool :=
  decide (c.toNat ≤ 32)

/-- The sanitisation `urlsplit` applies before parsing: strip leading C0
controls and spaces, then delete every tab, CR and LF. -/
def cleanUrl (s : List Char) : List Char :=
  (s.dropWhile c0ControlOrSpace).filter (fun c => !unsafeUrlChar c)

/-- The netloc-splitting step of `urlsplit`: when the text starts with
`//`, the netloc is the run after it up to the next `/`, `?` or `#` and
the rest follows; otherwise the netloc is empty and the text is kept. -/
def splitNetloc (r1 : List Char) : List Char × List Char :=
  if r1.take 2 = ['/', '/'] then
    ((r1.drop 2).takeWhile (fun c => !(c == '/') && !(c == '?') && !(c == '#')),
      r1.drop (2 + ((r1.drop 2).takeWhile
        (fun c => !(c == '/') && !(c == '?') && !(c == '#'))).length))
  else ([], r1)

/-- `urllib.parse.urlparse` restricted to the fields `parse_config`
uses, modelling `urlsplit` of CPython 3.10.12: the URL is first
sanitised (`cleanUrl`), the scheme is split off, the netloc (when the
remainder starts with `//`) runs up to the next `/`, `?` or `#`, and an
unmatched `[` or `]` in the netloc raises `Invalid IPv6 URL`; a
`#`-fragment is dropped and the query is what follows the first
remaining `?`.  The bracketed-host content validation of newer CPython
versions is not modelled (no claim involves a well-bracketed host). -/
def urlparse (s : List Char) : Except (List Char) UrlParts :=
  let u := cleanUrl s
  let sr := splitScheme u
  let nl := splitNetloc sr.2
  if ('[' ∈ nl.1 ∧ ']' ∉ nl.1) ∨ (']' ∈ nl.1 ∧ '[' ∉ nl.1) then
    .error "Invalid IPv6 URL".data
  else
    let r3 := match splitFirst '#' nl.2 with
      | some p => p.1
      | none => nl.2
    let query := match splitFirst '?' r3 with
      | some p => p.2
      | none => []
    .ok ⟨sr.1, nl.1, query⟩

/-- Digit tail of Python's `int(...)` string grammar: decimal digits with
single underscores allowed between digits, accumulating the value. -/
def pyDigitsCore : List Char → Nat → Option Nat
  | [], acc => some acc
  | '_' :: rest, acc =>
    match rest with
    | c :: rest' =>
      if c.isDigit then pyDigitsCore rest' (acc * 10 + (c.toNat - 48)) else none
    | [] => none
  | c :: rest, acc =>
    if c.isDigit then pyDigitsCore rest (acc * 10 + (c.toNat - 48)) else none

/-- Nonempty digit string (with Python's underscore rules) to its value. -/
def pyNat? : List Char → Option Nat
  | [] => none
  | c :: rest => if c.isDigit then pyDigitsCore rest (c.toNat - 48) else none

/-- Python's `str.strip()`: drop leading and trailing whitespace. -/
def pyStrip (s : List Char) : List Char :=
  ((s.dropWhile Char.isWhitespace).reverse.dropWhile Char.isWhitespace).reverse

/-- Python's `int(string)`: strip surrounding whitespace, allow one
leading sign, then a nonempty decimal digit string (underscores between
digits allowed); `none` models the `ValueError`.  Non-ASCII decimal
digits are not modelled. -/
def pyInt? (s : List Char) : Option Int :=
  match pyStrip s with
  | '+' :: rest => (pyNat? rest).map Int.ofNat
  | '-' :: rest => (pyNat? rest).map (fun n => -(n : Int))
  | t => (pyNat? t).map Int.ofNat

/-- A Python value stored in the parsed-configuration dict: the program
stores strings for every key except `port`, which holds an `int`. -/
inductive PyVal where
  | str : List Char → PyVal
  | int : Int → PyVal
deriving DecidableEq, Repr

/-- Python dict with string keys, as an insertion-ordered association
list with unique keys. -/
abbrev PyDict := List (List Char × PyVal)

/-- Python `dict[key]` lookup (`none` models `KeyError`/`dict.get` miss). -/
def dictGet (d : PyDict) (k : List Char) : Option PyVal :=
  (d.find? (fun p => decide (p.1 = k))).map (fun p => p.2)

/-- Python `dict[key] = value`: overwrite in place if the key exists,
else append. -/
def dictSet (d : PyDict) (k : List Char) (v : PyVal) : PyDict :=
  if d.any (fun p => decide (p.1 = k)) then
    d.map (fun p => if p.1 = k then (k, v) else p)
  else d ++ [(k, v)]

/-- Python `dict.update` with string values, key by key in order. -/
def dictUpdate (d : PyDict) (qs : List (List Char × List Char)) : PyDict :=
  qs.foldl (fun acc kv => dictSet acc kv.1 (PyVal.str kv.2)) d

/-- Python truthiness of `dict.get(key)`: an absent key (`None`), an
empty string and the integer 0 are falsy. -/
def pyTruthy : Option PyVal → Bool
  | none => false
  | some (.str s) => !s.isEmpty
  | some (.int n) => !(n == 0)

/-- `urllib.parse.parse_qsl` with default arguments: split the query on
`&`, keep only fields that contain `=` and have a nonempty value.
Percent-decoding and `+`-to-space decoding are not modelled (no claim
involves escaped queries). -/
def parse_qsl (q : List Char) : List (List Char × List Char) :=
  (pySplit '&' q).filterMap fun field =>
    match splitFirst '=' field with
    | none => none
    | some p => if p.2.isEmpty then none else some p

/-- `{key: value[0] for key, value in urllib.parse.parse_qs(...).items()}`
from `parse_config`: keys in first-appearance order, each mapped to the
first value `parse_qsl` kept for it. -/
def parse_qs_first (q : List Char) : List (List Char × List Char) :=
  (parse_qsl q).foldl
    (fun acc kv => if acc.any (fun p => decide (p.1 = kv.1)) then acc
                   else acc ++ [kv]) []

/-- `parse_config` from `src/main.py`: urlparse the string (a
`ValueError` raised by `urlparse` is caught by the surrounding `except`
clause and re-raised, so it propagates as a failure); require a
scheme and a netloc; `uuid` is the netloc up to the first `@` and the
address the following segment up to a `:` (an absent `@` raises);
the port is `int(netloc.split(':')[1])` (absent or non-numeric raises);
finally the query pairs are merged over the base keys with
`result.update(qs)`.  Errors model the `ValueError` raised either
directly or by the surrounding `except` clause. -/
def parse_config (config : List Char) : Except (List Char) PyDict :=
  match urlparse config with
  | .error e => .error e
  | .ok p =>
  if p.scheme.isEmpty || p.netloc.isEmpty then
    .error "Invalid configuration string. Missing scheme or netloc.".data
  else
    let atParts := pySplit '@' p.netloc
    match atParts.get? 1 with
    | none => .error "list index out of range".data
    | some seg =>
      match (pySplit ':' p.netloc).get? 1 with
      | none => .error "Invalid or missing port in the configuration string.".data
      | some portStr =>
        match pyInt? portStr with
        | none =>
          .error "Invalid or missing port in the configuration string.".data
        | some port =>
          let base : PyDict :=
            [("proto".data, .str p.scheme),
             ("uuid".data, .str (atParts.headD [])),
             ("address".data, .str ((pySplit ':' seg).headD [])),
             ("port".data, .int port)]
          .ok (dictUpdate base (parse_qs_first p.query))

/-- `self.config['address']` as read by `SniChecker.generate`.  After a
successful `parse_config` the key is always present and holds a string
(a query pair may overwrite it, but only with a string), so the default
is never reached. -/
def addrOf (d : PyDict) : List Char :=
  match dictGet d "address".data with
  | some (.str a) => a
  | _ => []

/-- The pre-expansion part of `SniChecker.generate`: the primary variant
(first occurrence of the address replaced), plus, when the `sni` key is
truthy, the second-occurrence variant of the original string, plus, when
the `host` key is truthy, the variant replacing occurrence number
`len(generated_urls)+1` of the original string. -/
def preVariants (d : PyDict) (url sni : List Char) : List (List Char) :=
  let address := addrOf d
  let g0 := [replaceFirst address sni url]
  let g1 :=
    if pyTruthy (dictGet d "sni".data) then g0 ++ [replace_nth url address sni 2]
    else g0
  if pyTruthy (dictGet d "host".data) then
    g1 ++ [replace_nth url address sni (Int.ofNat g1.length + 1)]
  else g1

/-- The expansion loop of `SniChecker.generate`.  Python evaluates
`range(len(generated_urls))` once, so the loop visits only the
pre-expansion indices even though it appends to the list, and
`generated_urls[i]` always reads a pre-expansion element; index 0 is
skipped; for the variant at index `i` it appends
`replace_nth(variant, address, sni, j+1)` for `j` in
`range(variant.count(address) - 1)`. -/
def expandLoop (address sni : List Char) (g : List (List Char)) :
    List (List Char) :=
  (List.range g.length).foldl
    (fun acc i =>
      if i = 0 then acc
      else
        acc ++ (List.range (countOcc address (g.getD i []) - 1)).map
          (fun j => replace_nth (g.getD i []) address sni (Int.ofNat j + 1)))
    g

/-- `SniChecker.generate`: build the pre-expansion variants and, when
there is more than one, run the expansion loop. -/
def generate (d : PyDict) (url sni : List Char) : List (List Char) :=
  let g := preVariants d url sni
  if g.length ≠ 1 then expandLoop (addrOf d) sni g else g

/-- The population `range(1024, 65536)` that the global `ports` list is
sampled from. -/
def portRange : List Int :=
  (List.range 64512).map (fun i => 1024 + Int.ofNat i)

/-- `random.sample(population, k)`: a k-length list of distinct elements
of the population, modelled as the first `k` elements of an arbitrary
permutation of the population (the permutation is the randomness). -/
def pySample (shuffled : List Int) (k : Nat) : List Int :=
  shuffled.take k

/-- Python's `list.pop()` on the `ports` list: remove and return the last
element; `none` models the `IndexError` on an empty list. -/
def popPort : List Int → Option (Int × List Int)
  | [] => none
  | x :: xs => some ((x :: xs).getLast (by simp), (x :: xs).dropLast)

/-- Drawing `n` ports in sequence with `ports.pop()`, returning the drawn
ports and the remaining pool (stopping early if the pool empties). -/
def drawPorts : Nat → List Int → List Int × List Int
  | 0, pool => ([], pool)
  | n + 1, pool =>
    match popPort pool with
    | none => ([], pool)
    | some (p, rest) =>
      let r := drawPorts n rest
      (p :: r.1, r.2)

/-- Outcome oracle for the effectful statements of one `SniChecker.run`
invocation after the child process has been launched: whether the
connectivity check raises, and whether each cleanup statement raises. -/
structure RunEnv where
  requestRaises : Bool
  killpgRaises : Bool
  waitRaises : Bool
  removeRaises : Bool
deriving DecidableEq, Repr

/-- Which effects of one probe run actually happened, plus the verdict. -/
structure RunEffects where
  signalled : Bool
  waited : Bool
  fileClosed : Bool
  fileRemoved : Bool
  succeeded : Bool
deriving DecidableEq, Repr

/-- One Python statement inside the `finally` block: if an earlier
statement already raised, later statements are skipped; if this one
raises, its effect does not happen and the exception propagates. -/
def pyStep (raises : Bool) (f : RunEffects → RunEffects) :
    RunEffects × Bool → RunEffects × Bool
  | (eff, true) => (eff, true)
  | (eff, false) => if raises then (eff, true) else (f eff, false)

/-- The `try`/`except`/`finally` of `SniChecker.run` after
`subprocess.Popen`: the `except Exception` clause catches any failure of
the sleep or the connectivity request, so the try-part itself never
escapes and only sets the verdict; the `finally` block then executes
`os.killpg`, `process.wait()`, `file.close()`, `os.remove(filename)` in
that order.  The boolean is `true` when an exception escaped `run`. -/
def runModel (env : RunEnv) : RunEffects × Bool :=
  let body : RunEffects × Bool :=
    (⟨false, false, false, false, !env.requestRaises⟩, false)
  let s1 := pyStep env.killpgRaises (fun e => { e with signalled := true }) body
  let s2 := pyStep env.waitRaises (fun e => { e with waited := true }) s1
  let s3 := pyStep false (fun e => { e with fileClosed := true }) s2
  pyStep env.removeRaises (fun e => { e with fileRemoved := true }) s3

/-- Iterating a file opened in binary mode: the chunks of the content up
to and including each newline byte, with a final chunk only when the
content does not end in a newline. -/
def pyLinesAux : List Char → List Char → List (List Char)
  | acc, [] => if acc.isEmpty then [] else [acc.reverse]
  | acc, '\n' :: rest => ('\n' :: acc).reverse :: pyLinesAux [] rest
  | acc, c :: rest => pyLinesAux (c :: acc) rest

/-- The lines yielded by `open(sni, 'rb')`. -/
def pyLines (s : List Char) : List (List Char) :=
  pyLinesAux [] s

/-- `[x.decode('utf-8').strip() for x in open(sni, 'rb')]` from `start`:
every line of the candidate file, stripped; no line is dropped. -/
def readCandidates (content : List Char) : List (List Char) :=
  (pyLines content).map pyStrip

/-- The variant list `start` dispatches probes over: one `SniChecker` per
candidate line (parsing the same configuration string each time, so a
parse failure aborts the whole run), with all generated variants
concatenated in candidate order. -/
def startConfigs (content config : List Char) :
    Except (List Char) (List (List Char)) :=
  match parse_config config with
  | .error e => .error e
  | .ok d => .ok ((readCandidates content).flatMap (fun x => generate d config x))

/-- A thread lifecycle event of the dispatch loop in `start`. -/
inductive DispatchEvent where
  | start
  | join
deriving DecidableEq, Repr

/-- The dispatch schedule of `start` for `n` variants: the created
semaphore is never acquired, so the loop starts one thread per variant
and only afterwards joins them all. -/
def dispatchTrace (n : Nat) : List DispatchEvent :=
  List.replicate n .start ++ List.replicate n .join

/-- Number of live threads after a trace. -/
def liveAfter (t : List DispatchEvent) : Nat :=
  t.foldl (fun live e => match e with | .start => live + 1 | .join => live - 1) 0

/-- Peak number of simultaneously live threads over a trace. -/
def peakLive (t : List DispatchEvent) : Nat :=
  (List.range (t.length + 1)).foldl (fun m k => max m (liveAfter (t.take k))) 0

/-- `replaceFirst` substitutes at the first position `occAux` reports,
relative to the scanned suffix. -/
theorem replaceFirst_occAux (a s : List Char) (ha : a ≠ []) :
    ∀ t fuel i, t.length ≤ fuel →
      replaceFirst a s t =
        match occAux a fuel t i with
        | [] => t
        | pos :: _ => t.take (pos - i) ++ s ++ t.drop (pos - i + a.length) := by
  intro t
  induction t with
  | nil =>
    intro fuel i _
    cases fuel with
    | zero => simp [occAux, replaceFirst, List.isEmpty_iff, ha]
    | succ f => simp [occAux, replaceFirst, List.isEmpty_iff, ha]
  | cons c rest ih =>
    intro fuel i hf
    cases fuel with
    | zero => simp at hf
    | succ f =>
      rw [occAux]
      by_cases hp : a.isPrefixOf (c :: rest) = true
      · rw [if_pos hp]
        simp only [Nat.sub_self]
        rw [replaceFirst, if_pos hp]
        simp
      · rw [if_neg hp]
        rw [replaceFirst, if_neg hp]
        have hf' : rest.length ≤ f := by simp at hf; omega
        rw [ih f (i + 1) hf']
        cases hocc : occAux a f rest (i + 1) with
        | nil => rfl
        | cons pos tl =>
          dsimp only
          have hpos : i + 1 ≤ pos := by
            have := occAux_mem_isPrefix a f rest (i + 1) pos
              (by rw [hocc]; exact List.mem_cons_self _ _)
            obtain ⟨k, hk, _⟩ := this
            omega
          have h1 : pos - i = (pos - (i + 1)) + 1 := by omega
          have h2 : pos - (i + 1) + 1 + a.length =
              (pos - (i + 1) + a.length) + 1 := by omega
          rw [h1, h2, List.take_succ_cons, List.drop_succ_cons]
          simp [List.append_assoc]

/-- Python's `str.replace(old, new, 1)` in terms of the occurrence list:
no occurrence leaves the string unchanged; otherwise the first occurrence
is substituted in place. -/
theorem replaceFirst_eq_first_occ (a s u : List Char) :
    replaceFirst a s u =
      match occurrences a u with
      | [] => u
      | pos :: _ => u.take pos ++ s ++ u.drop (pos + a.length) := by
  by_cases ha : a = []
  · subst ha
    rw [occurrences]
    simp only [List.isEmpty_nil, if_true, List.range_succ_eq_map]
    cases u <;> simp [replaceFirst]
  · rw [occurrences, if_neg (by simpa [List.isEmpty_iff] using ha)]
    rw [replaceFirst_occAux a s ha u u.length 0 (le_refl _)]
    cases occAux a u.length u 0 with
    | nil => rfl
    | cons pos tl => simp

/-- A fold that appends a block for every nonzero index equals the
initial list followed by the concatenation of the blocks. -/
theorem foldl_skip_zero_append {α : Type} (blk : Nat → List α) :
    ∀ (ns : List Nat) (init : List α),
      ns.foldl (fun acc i => if i = 0 then acc else acc ++ blk i) init =
        init ++ ns.flatMap (fun i => if i = 0 then [] else blk i) := by
  intro ns
  induction ns with
  | nil => intro init; simp
  | cons n ns ih =>
    intro init
    rw [List.foldl_cons, List.flatMap_cons]
    by_cases h : n = 0
    · subst h
      simp [ih]
    · rw [if_neg h, if_neg h, ih, List.append_assoc]

/-- Ranging over the indices of a list and reading each element is the
same as ranging over the list. -/
theorem flatMap_range_getD {α β : Type} (l : List α) (d : α) (f : α → List β) :
    (List.range l.length).flatMap (fun i => f (l.getD i d)) = l.flatMap f := by
  induction l with
  | nil => simp
  | cons a tl ih =>
    rw [List.length_cons, List.range_succ_eq_map, List.flatMap_cons,
      List.flatMap_map]
    simp only [List.getD_cons_zero, List.getD_cons_succ]
    rw [ih, List.flatMap_cons]

/-- The expansion loop appends, after the pre-expansion list, one block
per non-primary variant: for a variant with `m` occurrences of the
address left, the block has the `m - 1` strings obtained by substituting
the candidate at occurrences `1` to `m - 1` of that variant. -/
theorem expandLoop_eq (address sni : List Char) (g : List (List Char)) :
    expandLoop address sni g =
      g ++ (g.drop 1).flatMap
        (fun v => (List.range (countOcc address v - 1)).map
          (fun j => replace_nth v address sni (Int.ofNat j + 1))) := by
  rw [expandLoop, foldl_skip_zero_append]
  congr 1
  cases g with
  | nil => simp
  | cons v0 rest =>
    rw [List.length_cons, List.range_succ_eq_map, List.flatMap_cons,
      List.flatMap_map]
    simp only [if_pos rfl, List.nil_append, Nat.succ_ne_zero, if_false,
      List.getD_cons_succ]
    rw [List.drop_succ_cons, List.drop_zero]
    exact flatMap_range_getD rest []
      (fun v => (List.range (countOcc address v - 1)).map
        (fun j => replace_nth v address sni (Int.ofNat j + 1)))

/-- The parsed dict of the C2 example configuration. -/
def dictC2 : PyDict :=
  (parse_config "vless://u@a:1?sni=1".data).toOption.getD []

/-- C2 fails on the code: for this configuration the single non-primary
variant retains exactly one occurrence (`m = 1`) of the address, yet the
expansion pass appends no additional variant for it — the loop runs
`count - 1` times, not `count` — so the output has 2 variants where the
claim requires 3. -/
theorem generate_expansion_cex :
    (preVariants dictC2 "vless://u@a:1?sni=1".data "bb".data).length = 2 ∧
    countOcc (addrOf dictC2)
      ((preVariants dictC2 "vless://u@a:1?sni=1".data "bb".data).getD 1 []) = 1 ∧
    (generate dictC2 "vless://u@a:1?sni=1".data "bb".data).length = 2 :=
  ⟨rfl, rfl, rfl⟩

/-- C2 (amended): after the pre-expansion list, the generator appends one
block per non-primary variant; a variant with `m` remaining occurrences
of the address contributes exactly `m - 1` additional variants (none when
`m ≤ 1`), one for each occurrence index `j = 1 .. m-1`, each obtained by
substituting the candidate at occurrence `j` of that variant string (not
of the original string). -/
theorem generate_expansion_corrected (d : PyDict) (url sni : List Char)
    (h : (preVariants d url sni).length ≠ 1) :
    generate d url sni =
      preVariants d url sni ++
        ((preVariants d url sni).drop 1).flatMap
          (fun v => (List.range (countOcc (addrOf d) v - 1)).map
            (fun j => replace_nth v (addrOf d) sni (Int.ofNat j + 1))) := by
  simp only [generate]
  rw [if_pos h]
  exact expandLoop_eq (addrOf d) sni (preVariants d url sni)

/-- Witness for the amended C2 on the example configuration. -/
theorem generate_expansion_corrected_witness :
    generate dictC2 "vless://u@a:1?sni=1".data "bb".data =
      ["vless://u@bb:1?sni=1".data, "vless://u@a:1?sni=1".data] :=
  (generate_expansion_corrected dictC2 "vless://u@a:1?sni=1".data "bb".data
    (by decide)).trans (by decide)

/-- C5: when neither the `sni` nor the `host` query key is present and
truthy, the generator yields exactly one variant: the base string with
only the first occurrence of the address replaced by the candidate. -/
theorem generate_minimal (d : PyDict) (url sni : List Char)
    (hs : pyTruthy (dictGet d "sni".data) = false)
    (hh : pyTruthy (dictGet d "host".data) = false) :
    generate d url sni =
      [match occurrences (addrOf d) url with
       | [] => url
       | pos :: _ => url.take pos ++ sni ++ url.drop (pos + (addrOf d).length)] := by
  have hpre : preVariants d url sni = [replaceFirst (addrOf d) sni url] := by
    simp [preVariants, hs, hh]
  simp only [generate, hpre]
  rw [if_neg (by simp)]
  rw [replaceFirst_eq_first_occ]

/-- Witness for C5 on the example configuration. -/
theorem generate_minimal_witness :
    generate ((parse_config "vless://u@a:1".data).toOption.getD [])
        "vless://u@a:1".data "front.example".data =
      ["vless://u@front.example:1".data] :=
  (generate_minimal ((parse_config "vless://u@a:1".data).toOption.getD [])
    "vless://u@a:1".data "front.example".data (by decide) (by decide)).trans
    (by decide)

/-- The parsed dict of the C4 counterexample configuration. -/
def dictC4 : PyDict :=
  (parse_config "vless://u@xx:1?sni=1&host=xx".data).toOption.getD []

/-- C4 fails on the code: `sni` is present, the address `xx` occurs
exactly twice in the base string, and the candidate `bb` does not contain
it, yet the generator yields four variants, not two — the claim does not
exclude the `host` key, whose presence adds a third pre-expansion variant
and a fourth from the expansion pass. -/
theorem generate_sni_two_occ_cex :
    pyTruthy (dictGet dictC4 "sni".data) = true ∧
    countOcc (addrOf dictC4) "vless://u@xx:1?sni=1&host=xx".data = 2 ∧
    countOcc (addrOf dictC4) "bb".data = 0 ∧
    (generate dictC4 "vless://u@xx:1?sni=1&host=xx".data "bb".data).length = 4 :=
  ⟨rfl, rfl, rfl, rfl⟩

/-- C4 (amended): with `sni` truthy, `host` absent or falsy, the address
occurring exactly twice in the base string, and the second-occurrence
variant retaining exactly one occurrence of the address (the candidate
neither contains the address nor completes a new occurrence at a
substitution boundary), the generator yields exactly two variants: the
first occurrence substituted, and the second occurrence substituted. -/
theorem generate_sni_two_occ (d : PyDict) (url sni : List Char)
    (hs : pyTruthy (dictGet d "sni".data) = true)
    (hh : pyTruthy (dictGet d "host".data) = false)
    (h2 : (occurrences (addrOf d) url).length = 2)
    (hv : countOcc (addrOf d) (replace_nth url (addrOf d) sni 2) = 1) :
    generate d url sni =
      [url.take ((occurrences (addrOf d) url).getD 0 0) ++ sni ++
         url.drop ((occurrences (addrOf d) url).getD 0 0 + (addrOf d).length),
       url.take ((occurrences (addrOf d) url).getD 1 0) ++ sni ++
         url.drop ((occurrences (addrOf d) url).getD 1 0 + (addrOf d).length)] := by
  have hpre : preVariants d url sni =
      [replaceFirst (addrOf d) sni url, replace_nth url (addrOf d) sni 2] := by
    simp [preVariants, hs, hh]
  simp only [generate, hpre]
  rw [if_pos (by simp)]
  rw [expandLoop_eq]
  simp only [List.drop_succ_cons, List.drop_zero, List.flatMap_cons,
    List.flatMap_nil, hv, Nat.sub_self, List.range_zero, List.map_nil,
    List.append_nil, List.nil_append]
  have hfst : replaceFirst (addrOf d) sni url =
      url.take ((occurrences (addrOf d) url).getD 0 0) ++ sni ++
        url.drop ((occurrences (addrOf d) url).getD 0 0 + (addrOf d).length) := by
    rw [replaceFirst_eq_first_occ]
    obtain ⟨p0, p1, hocc⟩ := List.length_eq_two.mp h2
    rw [hocc]
    rfl
  have hsnd : replace_nth url (addrOf d) sni 2 =
      url.take ((occurrences (addrOf d) url).getD 1 0) ++ sni ++
        url.drop ((occurrences (addrOf d) url).getD 1 0 + (addrOf d).length) := by
    have := replace_nth_in_range url (addrOf d) sni 2 (by omega) (by omega)
    simpa using this
  rw [hfst, hsnd]

/-- Witness for the amended C4 on a two-occurrence configuration. -/
theorem generate_sni_two_occ_witness :
    generate ((parse_config "vless://u@xx:1?sni=xx".data).toOption.getD [])
        "vless://u@xx:1?sni=xx".data "bb".data =
      ["vless://u@bb:1?sni=xx".data, "vless://u@xx:1?sni=bb".data] :=
  (generate_sni_two_occ ((parse_config "vless://u@xx:1?sni=xx".data).toOption.getD [])
    "vless://u@xx:1?sni=xx".data "bb".data (by decide) (by decide) (by decide)
    (by decide)).trans (by decide)

/-- Python's `list.pop()` takes the last element and leaves the rest. -/
theorem popPort_eq (l : List Int) (h : l ≠ []) :
    popPort l = some (l.getLast h, l.dropLast) := by
  cases l with
  | nil => exact absurd rfl h
  | cons x xs => rfl

/-- Drawing as many ports as the pool holds pops the whole pool in
reverse order and leaves it empty. -/
theorem drawPorts_all (pool : List Int) :
    drawPorts pool.length pool = (pool.reverse, []) := by
  induction pool using List.reverseRecOn with
  | nil => rfl
  | append_singleton xs x ih =>
    have hne : xs ++ [x] ≠ [] := by simp
    have hlen : (xs ++ [x]).length = xs.length + 1 := by simp
    rw [hlen, drawPorts, popPort_eq (xs ++ [x]) hne]
    have hgl : (xs ++ [x]).getLast hne = x := List.getLast_concat xs
    have hdl : (xs ++ [x]).dropLast = xs := List.dropLast_concat
    rw [hgl, hdl]
    dsimp only
    rw [ih]
    simp

/-- C6: any sample of the pool population is 100 distinct integers in the
non-privileged range `[1024, 65535]`; drawing `N` ports from a pool of
`N` unique values yields `N` pairwise-distinct ports and empties the
pool; a further acquire on the empty pool fails instead of returning a
port. -/
theorem ports_pool_correct :
    (∀ shuffled : List Int, shuffled.Perm portRange →
      ((pySample shuffled 100).length = 100 ∧ (pySample shuffled 100).Nodup ∧
        ∀ x ∈ pySample shuffled 100, 1024 ≤ x ∧ x ≤ 65535)) ∧
    (∀ pool : List Int, pool.Nodup →
      ((drawPorts pool.length pool).1.length = pool.length ∧
        (drawPorts pool.length pool).1.Nodup ∧
        (drawPorts pool.length pool).2 = [])) ∧
    popPort [] = none := by
  refine ⟨?_, ?_, rfl⟩
  · intro shuffled hperm
    have hlen : shuffled.length = 64512 := by
      rw [hperm.length_eq, portRange, List.length_map, List.length_range]
    have hinj : Function.Injective (fun i : Nat => 1024 + Int.ofNat i) := by
      intro a b hab
      have hab' : 1024 + (a : Int) = 1024 + (b : Int) := hab
      omega
    have hnodupRange : portRange.Nodup := by
      rw [portRange]
      exact List.Nodup.map hinj (List.nodup_range 64512)
    have hnodup : shuffled.Nodup := hperm.nodup_iff.mpr hnodupRange
    refine ⟨?_, ?_, ?_⟩
    · rw [pySample, List.length_take]
      omega
    · exact (List.take_sublist _ _).nodup hnodup
    · intro x hx
      have hxmem : x ∈ shuffled := List.mem_of_mem_take hx
      have hxr : x ∈ portRange := hperm.mem_iff.mp hxmem
      simp only [portRange, List.mem_map, List.mem_range] at hxr
      obtain ⟨i, hi, hix⟩ := hxr
      have hix' : 1024 + (i : Int) = x := hix
      omega
  · intro pool hnodup
    rw [drawPorts_all]
    exact ⟨by simp, by simpa using hnodup, rfl⟩

/-- Witness for C6 at the identity permutation and a three-port pool. -/
theorem ports_pool_correct_witness :
    (pySample portRange 100).length = 100 ∧
    (drawPorts 3 [1, 2, 3]).1.length = 3 ∧ popPort [] = none := by
  refine ⟨(ports_pool_correct.1 portRange (List.Perm.refl _)).1, ?_,
    ports_pool_correct.2.2⟩
  have h := (ports_pool_correct.2.1 [1, 2, 3] (by decide)).1
  simpa using h

/-- C8 fails on the code: the `finally` block is a straight-line
sequence, so when terminating the process group raises, the wait and the
scratch-file removal are both skipped and the exception escapes. -/
theorem run_cleanup_cex :
    (runModel ⟨false, true, false, false⟩).1.fileRemoved = false ∧
    (runModel ⟨false, true, false, false⟩).1.waited = false ∧
    (runModel ⟨false, true, false, false⟩).2 = true := by
  decide

/-- C8 (amended): on every exit path of the try-block after launch —
success and connectivity failure alike — the cleanup signals the process
group, waits, closes and removes the scratch file, in order, provided no
cleanup statement itself raises; a cleanup statement that raises skips
the following ones. -/
theorem run_cleanup_corrected (env : RunEnv)
    (hk : env.killpgRaises = false) (hw : env.waitRaises = false)
    (hr : env.removeRaises = false) :
    (runModel env).1.signalled = true ∧ (runModel env).1.waited = true ∧
    (runModel env).1.fileClosed = true ∧ (runModel env).1.fileRemoved = true ∧
    (runModel env).2 = false ∧
    (runModel env).1.succeeded = !env.requestRaises := by
  obtain ⟨rq, kk, ww, rr⟩ := env
  simp only at hk hw hr
  subst hk hw hr
  cases rq <;> decide

/-- Witness for the amended C8 on the connectivity-failure path. -/
theorem run_cleanup_corrected_witness :
    (runModel ⟨true, false, false, false⟩).1.fileRemoved = true ∧
    (runModel ⟨true, false, false, false⟩).1.waited = true :=
  ⟨(run_cleanup_corrected ⟨true, false, false, false⟩ rfl rfl rfl).2.2.2.1,
   (run_cleanup_corrected ⟨true, false, false, false⟩ rfl rfl rfl).2.1⟩

/-- C9 fails on the code: blank lines are not ignored — the stripped
line list keeps the empty string, and the variant list then contains the
variants generated with the empty candidate (here the middle variant,
whose address was replaced by nothing). -/
theorem read_candidates_cex :
    readCandidates "a\n\nb\n".data = ["a".data, [], "b".data] ∧
    startConfigs "a\n\nb\n".data "vless://u@h:1".data =
      .ok ["vless://u@a:1".data, "vless://u@:1".data, "vless://u@b:1".data] :=
  ⟨rfl, rfl⟩

/-- The head of `dropWhile p` never satisfies `p`. -/
theorem head?_dropWhile_not (p : Char → Bool) (l : List Char) :
    ((l.dropWhile p).head?.all fun c => !p c) = true := by
  induction l with
  | nil => rfl
  | cons c rest ih =>
    rw [List.dropWhile_cons]
    by_cases h : p c = true
    · rw [if_pos h]
      exact ih
    · rw [if_neg h]
      simp [h]

/-- Dropping a prefix preserves any property of the (optional) last
element. -/
theorem all_getLast?_dropWhile (p q : Char → Bool) (l : List Char)
    (hl : (l.getLast?.all q) = true) :
    ((l.dropWhile p).getLast?.all q) = true := by
  induction l with
  | nil => exact hl
  | cons c rest ih =>
    rw [List.dropWhile_cons]
    by_cases h : p c = true
    · rw [if_pos h]
      cases rest with
      | nil => rfl
      | cons d rs =>
        apply ih
        rwa [List.getLast?_cons_cons] at hl
    · rw [if_neg h]
      exact hl

/-- A stripped string does not start with whitespace. -/
theorem pyStrip_head (l : List Char) :
    ((pyStrip l).head?.all fun ch => !ch.isWhitespace) = true := by
  rw [pyStrip, List.head?_reverse]
  apply all_getLast?_dropWhile
  rw [List.getLast?_reverse]
  exact head?_dropWhile_not _ _

/-- A stripped string does not end with whitespace. -/
theorem pyStrip_getLast (l : List Char) :
    ((pyStrip l).getLast?.all fun ch => !ch.isWhitespace) = true := by
  rw [pyStrip, List.getLast?_reverse]
  exact head?_dropWhile_not _ _

/-- C9 (amended): every line of the candidate file is trimmed of leading
and trailing whitespace, but blank lines are NOT ignored: no line is
dropped, so a blank or whitespace-only line yields the empty string as a
candidate domain. -/
theorem read_candidates_corrected (content : List Char) :
    (readCandidates content).length = (pyLines content).length ∧
    ∀ c ∈ readCandidates content,
      ((c.head?.all fun ch => !ch.isWhitespace) = true ∧
       (c.getLast?.all fun ch => !ch.isWhitespace) = true) := by
  refine ⟨by rw [readCandidates, List.length_map], ?_⟩
  intro c hc
  rw [readCandidates] at hc
  obtain ⟨line, -, rfl⟩ := List.mem_map.mp hc
  exact ⟨pyStrip_head line, pyStrip_getLast line⟩

/-- Witness for the amended C9 on a concrete candidate file. -/
theorem read_candidates_corrected_witness :
    (readCandidates "  a  \n\n".data).length =
      (pyLines "  a  \n\n".data).length ∧
    (("a".data).head?.all fun ch => !ch.isWhitespace) = true := by
  refine ⟨(read_candidates_corrected "  a  \n\n".data).1, ?_⟩
  exact ((read_candidates_corrected "  a  \n\n".data).2 "a".data (by decide)).1

/-- C10: the semaphore created in `start` is never acquired; with this
configuration and an 11-line candidate file the variant list has 11
entries and the dispatch loop starts all 11 threads before joining any,
so the peak number of concurrently live probe threads is 11, exceeding
the claimed bound of 10. -/
theorem dispatch_unbounded :
    (startConfigs "d1\nd2\nd3\nd4\nd5\nd6\nd7\nd8\nd9\nda\ndb\n".data
        "vless://u@h:1".data).toOption.map List.length = some 11 ∧
    peakLive (dispatchTrace 11) = 11 ∧ 10 < 11 :=
  ⟨rfl, rfl, by omega⟩
end SniChecker
